import Mathlib

/-!
# Verification of the P2P file-transfer core (`src/lib/p2pTransfer.ts`)

This file gives a shallow embedding, in Lean 4, of the peer-to-peer file
transfer engine of the repository: the chunked transfer protocol
(`P2PFileTransfer.sendFile` and the `onmessage` handler installed by
`setupDataChannel`), the out-of-band connection-descriptor codec
(`btoa(JSON.stringify(...))` / `JSON.parse(atob(...))` as used by
`createOffer`, `acceptOffer` and `completeConnection`), the peer registry
operations (`completeConnection`, `disconnect`, the `onclose` handler), the
send-side backpressure loop, and the ICE-gathering wait of `createOffer`.

Strings are modelled as lists of UTF-16 code units (`List Nat`); byte
buffers as lists of byte values.  Platform builtins used by the code
(`btoa`/`atob`, `JSON.stringify`/`JSON.parse`) are embedded by executable
Lean functions implementing their standard semantics on the fragment the
code exercises (canonical padded base64; whitespace-free JSON consisting of
strings and objects, which is exactly what `JSON.stringify` produces for
the objects this code serializes).
-/

/-- A JavaScript string: a list of UTF-16 code units. -/
abbrev JStr := List Nat

/-! ## Chunked transfer protocol: receiver (`setupDataChannel`, lines 193-227)

Per data channel, the handler closes over
`receivedChunks : ArrayBuffer[]` and
`fileMetadata : {name; size; type} | null`. -/

/-- The metadata frame `{name, size, type}` sent by `sendFile` (lines
240-245) and stored into `fileMetadata` by the `onmessage` handler.  The
handler obtains it as `JSON.parse(event.data)`; we model the text frame as
carrying the parsed record. -/
structure Meta where
  name : JStr
  size : Nat
  mime : JStr
  deriving DecidableEq, Repr

/-- A message arriving on the data channel: `typeof event.data === 'string'`
distinguishes the metadata (text) frame from a binary file chunk. -/
inductive Msg where
  | text (m : Meta)
  | binary (b : List Nat)
  deriving DecidableEq, Repr

/-- The `File` constructed on completion:
`new File([blob], fileMetadata.name, { type: fileMetadata.type })` where
`blob = new Blob(receivedChunks, ...)`, so its content is the
concatenation of the received chunks. -/
structure RFile where
  name : JStr
  mime : JStr
  content : List Nat
  deriving DecidableEq, Repr

/-- Events delivered to the registered callbacks. -/
inductive Event where
  | progress (filename : JStr) (bytes : Nat) (total : Nat)
  | fileReceived (f : RFile) (fromPeer : JStr)
  | peerDisconnected (peerId : JStr)
  deriving DecidableEq, Repr

/-- The receiver-side reassembly state closed over by the `onmessage`
handler of one channel. -/
structure RecvState where
  fileMetadata : Option Meta
  receivedChunks : List (List Nat)
  deriving DecidableEq, Repr

/-- Models `receivedChunks.reduce((acc, chunk) => acc + chunk.byteLength, 0)`
(lines 203 and 213). -/
def sumBytes (cs : List (List Nat)) : Nat :=
  cs.foldl (fun acc chunk => acc + chunk.length) 0

/-- One step of the `onmessage` handler (lines 193-227).  A text frame
stores the new metadata and clears the buffer; a binary frame is appended,
progress is emitted when metadata is active, and when the accumulated byte
count reaches the declared size the file is assembled and emitted. -/
def recvStep (peerName : JStr) (s : RecvState) : Msg → RecvState × List Event
  | .text m => ({ fileMetadata := some m, receivedChunks := [] }, [])
  | .binary b =>
    let chunks := s.receivedChunks ++ [b]
    match s.fileMetadata with
    | none => ({ fileMetadata := none, receivedChunks := chunks }, [])
    | some m =>
      let received := sumBytes chunks
      let evts := [Event.progress m.name received m.size]
      if m.size ≤ received then
        ({ fileMetadata := none, receivedChunks := [] },
          evts ++ [Event.fileReceived ⟨m.name, m.mime, chunks.flatten⟩ peerName])
      else
        ({ fileMetadata := some m, receivedChunks := chunks }, evts)

/-- Running the `onmessage` handler over a sequence of in-order channel
messages, collecting the emitted events. -/
def processMsgs (peerName : JStr) (s : RecvState) : List Msg → RecvState × List Event
  | [] => (s, [])
  | msg :: rest =>
    let p := recvStep peerName s msg
    let q := processMsgs peerName p.1 rest
    (q.1, p.2 ++ q.2)

/-! ## Chunked transfer protocol: sender framing (`sendFile`, lines 247-259)

`sendFile` slices the file as `file.slice(offset, offset + chunkSize)`
with `offset` advancing by `chunkSize = 16384` while `offset < file.size`. -/

/-- Models `const chunkSize = 16384; // 16KB chunks` (line 237). -/
def chunkSize : Nat := 16384

/-- The slicing loop of `sendFile`, fuelled by the number of remaining
bytes (each iteration consumes at least one byte when `0 < n`). -/
def chunksOfGo (n : Nat) : Nat → List Nat → List (List Nat)
  | _, [] => []
  | 0, _ :: _ => []
  | fuel + 1, x :: xs => (x :: xs).take n :: chunksOfGo n fuel ((x :: xs).drop n)

/-- The list of binary frames produced by `sendFile` for a file with the
given bytes: successive slices of at most `n` bytes. -/
def chunksOf (n : Nat) (l : List Nat) : List (List Nat) :=
  chunksOfGo n l.length l

theorem sumBytes_eq (cs : List (List Nat)) :
    sumBytes cs = (cs.map List.length).sum := by
  suffices h : ∀ a, cs.foldl (fun acc chunk => acc + chunk.length) a
      = a + (cs.map List.length).sum by
    simpa [sumBytes] using h 0
  induction cs with
  | nil => simp
  | cons c cs ih => intro a; simp [List.foldl_cons, ih]; omega

theorem sumBytes_append_one (cs : List (List Nat)) (b : List Nat) :
    sumBytes (cs ++ [b]) = sumBytes cs + b.length := by
  simp [sumBytes_eq]

theorem chunksOfGo_fuel {α : Nat} : ∀ (f1 f2 : Nat) (l : List Nat),
    l.length ≤ f1 → l.length ≤ f2 → 1 ≤ α →
    chunksOfGo α f1 l = chunksOfGo α f2 l := by
  intro f1
  induction f1 with
  | zero =>
    intro f2 l h1 _ _
    have : l = [] := List.length_eq_zero.mp (Nat.le_zero.mp h1)
    subst this
    cases f2 <;> rfl
  | succ f ih =>
    intro f2 l h1 h2 hα
    cases l with
    | nil => cases f2 <;> rfl
    | cons x xs =>
      cases f2 with
      | zero => simp at h2
      | succ g =>
        simp only [chunksOfGo]
        congr 1
        apply ih
        · have := List.length_drop α (x :: xs)
          simp at h1 ⊢
          omega
        · have := List.length_drop α (x :: xs)
          simp at h2 ⊢
          omega
        · exact hα

theorem chunksOf_nil (n : Nat) : chunksOf n ([] : List Nat) = [] := rfl

theorem chunksOf_cons (n : Nat) (l : List Nat) (hn : 1 ≤ n) (hl : l ≠ []) :
    chunksOf n l = l.take n :: chunksOf n (l.drop n) := by
  cases l with
  | nil => exact absurd rfl hl
  | cons x xs =>
    show chunksOfGo n (xs.length + 1) (x :: xs) = _
    simp only [chunksOfGo]
    congr 1
    apply chunksOfGo_fuel
    · simp; omega
    · simp
    · exact hn

theorem chunksOf_flatten (n : Nat) (hn : 1 ≤ n) : ∀ (fuel : Nat) (l : List Nat),
    l.length ≤ fuel → (chunksOf n l).flatten = l := by
  intro fuel
  induction fuel with
  | zero =>
    intro l h
    have : l = [] := List.length_eq_zero.mp (Nat.le_zero.mp h)
    subst this; rfl
  | succ f ih =>
    intro l h
    cases l with
    | nil => rfl
    | cons x xs =>
      rw [chunksOf_cons n _ hn (by simp)]
      simp only [List.flatten_cons]
      rw [ih]
      · exact List.take_append_drop n (x :: xs)
      · simp at h ⊢; omega

theorem chunksOf_join (n : Nat) (l : List Nat) (hn : 1 ≤ n) :
    (chunksOf n l).flatten = l :=
  chunksOf_flatten n hn l.length l le_rfl

theorem chunksOf_sum_lengths (n : Nat) (l : List Nat) (hn : 1 ≤ n) :
    ((chunksOf n l).map List.length).sum = l.length := by
  have := chunksOf_join n l hn
  calc ((chunksOf n l).map List.length).sum
      = (chunksOf n l).flatten.length := (List.length_flatten _).symm
    _ = l.length := by rw [this]

theorem chunksOf_mem_ne_nil (n : Nat) (hn : 1 ≤ n) : ∀ (fuel : Nat) (l : List Nat),
    l.length ≤ fuel → ∀ c ∈ chunksOf n l, c ≠ [] := by
  intro fuel
  induction fuel with
  | zero =>
    intro l h c hc
    have : l = [] := List.length_eq_zero.mp (Nat.le_zero.mp h)
    subst this; simp [chunksOf_nil] at hc
  | succ f ih =>
    intro l h c hc
    cases l with
    | nil => simp [chunksOf_nil] at hc
    | cons x xs =>
      rw [chunksOf_cons n _ hn (by simp)] at hc
      rcases List.mem_cons.mp hc with h1 | h1
      · subst h1
        cases n with
        | zero => omega
        | succ m => simp
      · exact ih _ (by simp at h ⊢; omega) c h1

theorem chunksOf_ne_nil (n : Nat) (l : List Nat) (hn : 1 ≤ n) (hl : l ≠ []) :
    chunksOf n l ≠ [] := by
  rw [chunksOf_cons n l hn hl]; simp

/-! ## Receiver reassembly: exact event traces -/

/-- The receiver-side progress events produced while consuming a list of
binary frames, starting from `start` already-buffered bytes: after each
frame the handler reports the cumulative byte count against the declared
total (lines 202-209). -/
def progressesFrom (m : Meta) (start : Nat) : List (List Nat) → List Event
  | [] => []
  | f :: fs =>
    Event.progress m.name (start + f.length) m.size :: progressesFrom m (start + f.length) fs

/-- Whether an event is a `FileReceived` callback invocation. -/
def Event.isFileReceived : Event → Bool
  | .fileReceived _ _ => true
  | _ => false

theorem progressesFrom_no_file (m : Meta) : ∀ (fs : List (List Nat)) (start : Nat),
    (progressesFrom m start fs).filter Event.isFileReceived = [] := by
  intro fs
  induction fs with
  | nil => intro start; rfl
  | cons f fs ih =>
    intro start
    simp [progressesFrom, List.filter_cons, Event.isFileReceived, ih]

theorem processMsgs_cons (peerName : JStr) (s : RecvState) (msg : Msg) (rest : List Msg) :
    processMsgs peerName s (msg :: rest) =
      ((processMsgs peerName (recvStep peerName s msg).1 rest).1,
        (recvStep peerName s msg).2 ++ (processMsgs peerName (recvStep peerName s msg).1 rest).2) :=
  rfl

/-- A binary frame that does not yet complete the declared size: the chunk
is appended and a single progress event fires. -/
theorem recvStep_binary_mid (peerName : JStr) (m : Meta) (acc : List (List Nat))
    (b : List Nat) (h : sumBytes (acc ++ [b]) < m.size) :
    recvStep peerName ⟨some m, acc⟩ (.binary b) =
      (⟨some m, acc ++ [b]⟩, [Event.progress m.name (sumBytes (acc ++ [b])) m.size]) := by
  simp only [recvStep]
  rw [if_neg (by omega)]

/-- A binary frame that reaches (or passes) the declared size: progress
fires, the file is assembled from all buffered chunks, and the state
resets. -/
theorem recvStep_binary_last (peerName : JStr) (m : Meta) (acc : List (List Nat))
    (b : List Nat) (h : m.size ≤ sumBytes (acc ++ [b])) :
    recvStep peerName ⟨some m, acc⟩ (.binary b) =
      (⟨none, []⟩,
        [Event.progress m.name (sumBytes (acc ++ [b])) m.size,
          Event.fileReceived ⟨m.name, m.mime, (acc ++ [b]).flatten⟩ peerName]) := by
  simp only [recvStep]
  rw [if_pos h]
  rfl

/-- Consuming a nonempty list of nonempty binary frames whose total length
exactly completes the declared size: every frame but the last leaves the
transfer incomplete, the last one assembles and emits the file, and the
handler state is reset. -/
theorem processBin (peerName : JStr) (m : Meta) :
    ∀ (frames : List (List Nat)) (acc : List (List Nat)),
    frames ≠ [] → (∀ f ∈ frames, f ≠ []) →
    sumBytes acc + (frames.map List.length).sum = m.size →
    processMsgs peerName ⟨some m, acc⟩ (frames.map Msg.binary) =
      (⟨none, []⟩,
        progressesFrom m (sumBytes acc) frames ++
          [Event.fileReceived ⟨m.name, m.mime, (acc ++ frames).flatten⟩ peerName]) := by
  intro frames
  induction frames with
  | nil => intro acc h; exact absurd rfl h
  | cons f fs ih =>
    intro acc _ hne hsum
    cases fs with
    | nil =>
      have hsz : sumBytes (acc ++ [f]) = m.size := by
        rw [sumBytes_append_one]; simp at hsum; omega
      simp only [List.map_cons, List.map_nil]
      rw [processMsgs_cons]
      rw [recvStep_binary_last peerName m acc f (le_of_eq hsz.symm)]
      simp [processMsgs, progressesFrom, sumBytes_append_one]
    | cons g gs =>
      have hg : g ≠ [] := hne g (by simp)
      have hglen : 1 ≤ g.length := by
        cases g with
        | nil => exact absurd rfl hg
        | cons _ _ => simp
      have hlt : sumBytes (acc ++ [f]) < m.size := by
        rw [sumBytes_append_one]
        simp [List.sum_cons] at hsum
        omega
      simp only [List.map_cons]
      rw [processMsgs_cons]
      rw [recvStep_binary_mid peerName m acc f hlt]
      have hrec := ih (acc ++ [f]) (by simp) (fun x hx => hne x (by simp [hx]))
        (by rw [sumBytes_append_one]; simp [List.sum_cons] at hsum ⊢; omega)
      simp only [List.map_cons] at hrec
      rw [hrec]
      simp [progressesFrom, sumBytes_append_one, List.append_assoc]

/-- The full in-order send/receive trace for a nonempty file: `sendFile`
emits one metadata frame followed by the `chunkSize`-slices of the file;
the receiver's handler, run over exactly these messages, reports progress
after each frame and assembles the original bytes. -/
theorem sendRecv_trace (peerName name mime : JStr) (bytes : List Nat) (h : bytes ≠ []) :
    processMsgs peerName ⟨none, []⟩
        (Msg.text ⟨name, bytes.length, mime⟩ :: (chunksOf chunkSize bytes).map Msg.binary) =
      (⟨none, []⟩,
        progressesFrom ⟨name, bytes.length, mime⟩ 0 (chunksOf chunkSize bytes) ++
          [Event.fileReceived ⟨name, mime, bytes⟩ peerName]) := by
  have hn : 1 ≤ chunkSize := by norm_num [chunkSize]
  rw [processMsgs_cons]
  have hstep : recvStep peerName ⟨none, []⟩ (.text ⟨name, bytes.length, mime⟩) =
      (⟨some ⟨name, bytes.length, mime⟩, []⟩, []) := rfl
  rw [hstep]
  have hmain := processBin peerName ⟨name, bytes.length, mime⟩ (chunksOf chunkSize bytes) []
    (chunksOf_ne_nil chunkSize bytes hn h)
    (chunksOf_mem_ne_nil chunkSize hn bytes.length bytes le_rfl)
    (by simpa [sumBytes] using chunksOf_sum_lengths chunkSize bytes hn)
  rw [hmain]
  have hflat : ((([] : List (List Nat)) ++ chunksOf chunkSize bytes)).flatten = bytes := by
    simpa using chunksOf_join chunkSize bytes hn
  rw [hflat]
  simp [sumBytes]

/-- C1 (amended to `S ≥ 1`): for every nonempty file delivered in order,
the receiver reconstructs a file with exactly the original bytes, the
declared name and the declared MIME type, and exactly one `FileReceived`
event fires.  (For `S = 0` the claim fails: see
`claim1_zero_size_counterexample`.) -/
theorem claim1_receiver_reconstructs (peerName name mime : JStr) (bytes : List Nat)
    (h : bytes ≠ []) :
    processMsgs peerName ⟨none, []⟩
        (Msg.text ⟨name, bytes.length, mime⟩ :: (chunksOf chunkSize bytes).map Msg.binary) =
      (⟨none, []⟩,
        progressesFrom ⟨name, bytes.length, mime⟩ 0 (chunksOf chunkSize bytes) ++
          [Event.fileReceived ⟨name, mime, bytes⟩ peerName]) ∧
    (processMsgs peerName ⟨none, []⟩
        (Msg.text ⟨name, bytes.length, mime⟩ :: (chunksOf chunkSize bytes).map Msg.binary)).2.filter
        Event.isFileReceived = [Event.fileReceived ⟨name, mime, bytes⟩ peerName] := by
  have hmain := sendRecv_trace peerName name mime bytes h
  refine ⟨hmain, ?_⟩
  rw [hmain]
  simp [List.filter_append, progressesFrom_no_file, Event.isFileReceived]

theorem claim1_witness :
    ([1, 2, 3] : List Nat) ≠ [] ∧
    (processMsgs [] ⟨none, []⟩
        (Msg.text ⟨[102], ([1, 2, 3] : List Nat).length, [116]⟩ ::
          (chunksOf chunkSize [1, 2, 3]).map Msg.binary)).2.filter
        Event.isFileReceived = [Event.fileReceived ⟨[102], [116], [1, 2, 3]⟩ []] :=
  ⟨by decide, (claim1_receiver_reconstructs [] [102] [116] [1, 2, 3] (by decide)).2⟩

/-- C1 counterexample: for a zero-byte file (`S = 0`) the sender emits the
metadata frame and no binary frames, and the receiver — whose completion
check runs only inside the binary-message branch — never fires
`FileReceived` and never reconstructs a file; the transfer stays pending. -/
theorem claim1_zero_size_counterexample :
    processMsgs [] ⟨none, []⟩
        (Msg.text ⟨[102], ([] : List Nat).length, [116]⟩ ::
          (chunksOf chunkSize []).map Msg.binary) =
      (⟨some ⟨[102], 0, [116]⟩, []⟩, []) ∧
    (processMsgs [] ⟨none, []⟩
        (Msg.text ⟨[102], ([] : List Nat).length, [116]⟩ ::
          (chunksOf chunkSize []).map Msg.binary)).2.filter Event.isFileReceived = [] := by
  constructor <;> rfl

/-- C4: a text (metadata) frame replaces any in-flight transfer state with
a fresh one — the new metadata becomes active, the chunk buffer is
discarded, and the receiver's entire subsequent behaviour is independent
of whatever state (metadata and buffered bytes) existed before the frame
(last-metadata-wins). -/
theorem claim4_last_metadata_wins (peerName : JStr) (m : Meta) (s sAlt : RecvState)
    (ms : List Msg) :
    recvStep peerName s (.text m) = (⟨some m, []⟩, []) ∧
    processMsgs peerName s (.text m :: ms) = processMsgs peerName sAlt (.text m :: ms) := by
  constructor
  · rfl
  · rw [processMsgs_cons, processMsgs_cons]
    rfl

/-- Orphaned buffered chunks are observationally irrelevant: while no
metadata is active, the events emitted on any subsequent message sequence
do not depend on the contents of the chunk buffer. -/
theorem orphanEquiv (peerName : JStr) : ∀ (ms : List Msg) (cs1 cs2 : List (List Nat)),
    (processMsgs peerName ⟨none, cs1⟩ ms).2 = (processMsgs peerName ⟨none, cs2⟩ ms).2 := by
  intro ms
  induction ms with
  | nil => intro cs1 cs2; rfl
  | cons msg rest ih =>
    intro cs1 cs2
    cases msg with
    | text m =>
      rw [processMsgs_cons, processMsgs_cons]
      rfl
    | binary b =>
      rw [processMsgs_cons, processMsgs_cons]
      have h1 : recvStep peerName ⟨none, cs1⟩ (.binary b) = (⟨none, cs1 ++ [b]⟩, []) := rfl
      have h2 : recvStep peerName ⟨none, cs2⟩ (.binary b) = (⟨none, cs2 ++ [b]⟩, []) := rfl
      rw [h1, h2]
      simpa using ih (cs1 ++ [b]) (cs2 ++ [b])

/-- C5: a binary message arriving with no active metadata triggers no
event at all, and the receiver's observable behaviour on all subsequent
messages is the same as if the orphan message had never arrived. -/
theorem claim5_orphan_binary_dropped (peerName : JStr) (cs : List (List Nat))
    (b : List Nat) (ms : List Msg) :
    (recvStep peerName ⟨none, cs⟩ (.binary b)).2 = [] ∧
    (processMsgs peerName (recvStep peerName ⟨none, cs⟩ (.binary b)).1 ms).2 =
      (processMsgs peerName ⟨none, cs⟩ ms).2 := by
  constructor
  · rfl
  · have h1 : (recvStep peerName ⟨none, cs⟩ (.binary b)).1 = ⟨none, cs ++ [b]⟩ := rfl
    rw [h1]
    exact orphanEquiv peerName ms (cs ++ [b]) cs

theorem chunksOf_len_40000 (bytes : List Nat) (h : bytes.length = 40000) :
    (chunksOf chunkSize bytes).map List.length = [16384, 16384, 7232] := by
  have h0 : bytes ≠ [] := by
    intro e; rw [e] at h; simp at h
  rw [chunksOf_cons chunkSize bytes (by norm_num [chunkSize]) h0]
  have hd1 : (bytes.drop chunkSize).length = 23616 := by
    simp [chunkSize, h]
  have h1 : bytes.drop chunkSize ≠ [] := by
    intro e; rw [e] at hd1; simp at hd1
  rw [chunksOf_cons chunkSize _ (by norm_num [chunkSize]) h1]
  have hd2 : ((bytes.drop chunkSize).drop chunkSize).length = 7232 := by
    simp [chunkSize, h]
  have h2 : (bytes.drop chunkSize).drop chunkSize ≠ [] := by
    intro e; rw [e] at hd2; simp at hd2
  rw [chunksOf_cons chunkSize _ (by norm_num [chunkSize]) h2]
  have hd3 : ((bytes.drop chunkSize).drop chunkSize).drop chunkSize = [] := by
    apply List.drop_eq_nil_of_le
    rw [hd2]; norm_num [chunkSize]
  rw [hd3, chunksOf_nil]
  simp [List.length_take, chunkSize, h, hd1, hd2]

/-- The receiver-side progress trace depends on the frames only through
their lengths. -/
def progressesOfLens (m : Meta) (s : Nat) : List Nat → List Event
  | [] => []
  | n :: ns => Event.progress m.name (s + n) m.size :: progressesOfLens m (s + n) ns

theorem progressesFrom_eq_lens (m : Meta) : ∀ (frames : List (List Nat)) (s : Nat),
    progressesFrom m s frames = progressesOfLens m s (frames.map List.length) := by
  intro frames
  induction frames with
  | nil => intro s; rfl
  | cons f fs ih => intro s; simp [progressesFrom, progressesOfLens, ih]

/-- C3: a 40000-byte file with 16384-byte frames is sent as exactly three
binary frames of sizes 16384, 16384, 7232; the receiver emits progress
events with cumulative byte counts 16384, 32768, 40000, then exactly one
`FileReceived` whose file has the original 40000 bytes. -/
theorem claim3_40000_scenario (peerName name mime : JStr) (bytes : List Nat)
    (h : bytes.length = 40000) :
    (chunksOf chunkSize bytes).map List.length = [16384, 16384, 7232] ∧
    processMsgs peerName ⟨none, []⟩
        (Msg.text ⟨name, 40000, mime⟩ :: (chunksOf chunkSize bytes).map Msg.binary) =
      (⟨none, []⟩,
        [Event.progress name 16384 40000,
          Event.progress name 32768 40000,
          Event.progress name 40000 40000,
          Event.fileReceived ⟨name, mime, bytes⟩ peerName]) := by
  have hk := chunksOf_len_40000 bytes h
  refine ⟨hk, ?_⟩
  have h0 : bytes ≠ [] := by
    intro e; rw [e] at h; simp at h
  have hmain := sendRecv_trace peerName name mime bytes h0
  rw [h] at hmain
  rw [hmain]
  rw [progressesFrom_eq_lens ⟨name, 40000, mime⟩ (chunksOf chunkSize bytes) 0, hk]
  norm_num [progressesOfLens]

theorem claim3_witness :
    (List.replicate 40000 (0 : Nat)).length = 40000 ∧
    ((chunksOf chunkSize (List.replicate 40000 (0 : Nat))).map List.length
        = [16384, 16384, 7232] ∧
      processMsgs [] ⟨none, []⟩
          (Msg.text ⟨[102], 40000, [116]⟩ ::
            (chunksOf chunkSize (List.replicate 40000 (0 : Nat))).map Msg.binary) =
        (⟨none, []⟩,
          [Event.progress [102] 16384 40000,
            Event.progress [102] 32768 40000,
            Event.progress [102] 40000 40000,
            Event.fileReceived ⟨[102], [116], List.replicate 40000 (0 : Nat)⟩ []])) :=
  ⟨List.length_replicate 40000 0,
    claim3_40000_scenario [] [102] [116] _ (List.length_replicate 40000 0)⟩

/-! ## Send-side backpressure (`sendFile`, lines 247-268)

The channel is modelled by its `bufferedAmount`; the environment drains it
between polls.  `drains` lists the number of bytes the transport flushes
during each successive 100 ms sleep. -/

/-- The value `chunkSize * 10` — the high-water mark of the backpressure check
`while (channel.bufferedAmount > chunkSize * 10)` (line 254). -/
def highWaterMark : Nat := chunkSize * 10

/-- The fixed polling interval of the backpressure wait:
`setTimeout(resolve, 100)` (line 255). -/
def pollIntervalMs : Nat := 100

/-- Observable actions of one `sendFile` call. -/
inductive SendItem where
  | sentMeta (m : Meta)
  | waited (ms : Nat)
  | sent (frame : List Nat) (bufferedAtSend : Nat)
  | progress (bytes : Nat) (total : Nat)
  deriving DecidableEq, Repr

/-- The wait loop `while (channel.bufferedAmount > chunkSize * 10) await
sleep(100)`: each iteration sleeps 100 ms, during which the transport
drains the next amount from `drains`.  Returns the wait trace, the
buffered amount after the loop, the remaining drain schedule, and whether
the loop exited (`false` = the schedule ran out while still above the
mark, i.e. the real loop would still be waiting). -/
def waitBuffer : List Nat → Nat → List SendItem × Nat × List Nat × Bool
  | drains, buf =>
    if buf ≤ highWaterMark then ([], buf, drains, true)
    else
      match drains with
      | [] => ([], buf, [], false)
      | d :: ds =>
        let r := waitBuffer ds (buf - d)
        (SendItem.waited pollIntervalMs :: r.1, r.2)

/-- The chunk loop of `sendFile` (lines 248-268): for each frame, run the
backpressure wait, hand the frame to `channel.send` (which adds its length
to `bufferedAmount`), advance `offset` by `chunkSize`, and emit progress
`min(offset, size)`. -/
def sendChunks : List (List Nat) → List Nat → Nat → Nat → Nat → List SendItem
  | [], _, _, _, _ => []
  | f :: fs, drains, buf, offset, total =>
    let w := waitBuffer drains buf
    if w.2.2.2 then
      w.1 ++ SendItem.sent f w.2.1 ::
        SendItem.progress (min (offset + chunkSize) total) total ::
          sendChunks fs w.2.2.1 (w.2.1 + f.length) (offset + chunkSize) total
    else w.1

/-- One `sendFile(peerId, file)` call: the metadata text frame is sent
unconditionally (line 245), then the file's `chunkSize`-slices go through
the backpressure-guarded loop.  `buf0` is the channel's buffered amount
when the loop starts. -/
def sendFileModel (bytes : List Nat) (m : Meta) (drains : List Nat) (buf0 : Nat) :
    List SendItem :=
  SendItem.sentMeta m :: sendChunks (chunksOf chunkSize bytes) drains buf0 0 bytes.length

theorem waitBuffer_no_sent (drains : List Nat) : ∀ (buf : Nat) (f : List Nat) (b : Nat),
    SendItem.sent f b ∉ (waitBuffer drains buf).1 := by
  induction drains with
  | nil =>
    intro buf f b
    rw [waitBuffer]
    split <;> simp
  | cons d ds ih =>
    intro buf f b
    rw [waitBuffer]
    split
    · simp
    · simpa using ih (buf - d) f b

theorem waitBuffer_le (drains : List Nat) : ∀ (buf : Nat),
    (waitBuffer drains buf).2.2.2 = true →
    (waitBuffer drains buf).2.1 ≤ highWaterMark := by
  induction drains with
  | nil =>
    intro buf
    rw [waitBuffer]
    split
    · intro _; simpa using by omega
    · intro h; simp at h
  | cons d ds ih =>
    intro buf
    rw [waitBuffer]
    split
    · intro _; simp; omega
    · intro h
      simp at h ⊢
      exact ih (buf - d) h

theorem waitBuffer_waits (drains : List Nat) : ∀ (buf : Nat) (ms : Nat),
    SendItem.waited ms ∈ (waitBuffer drains buf).1 → ms = pollIntervalMs := by
  induction drains with
  | nil =>
    intro buf ms
    rw [waitBuffer]
    split <;> simp
  | cons d ds ih =>
    intro buf ms
    rw [waitBuffer]
    split
    · simp
    · intro h
      simp at h
      rcases h with h | h
      · exact h
      · exact ih (buf - d) ms h

theorem sendChunks_bounded : ∀ (fs : List (List Nat)) (drains : List Nat)
    (buf offset total : Nat) (f : List Nat) (b : Nat),
    SendItem.sent f b ∈ sendChunks fs drains buf offset total → b ≤ highWaterMark := by
  intro fs
  induction fs with
  | nil => intro drains buf offset total f b h; simp [sendChunks] at h
  | cons g gs ih =>
    intro drains buf offset total f b h
    rw [sendChunks] at h
    by_cases hok : (waitBuffer drains buf).2.2.2 = true
    · rw [if_pos hok] at h
      rcases List.mem_append.mp h with h1 | h1
      · exact absurd h1 (waitBuffer_no_sent drains buf f b)
      · rcases List.mem_cons.mp h1 with h2 | h2
        · obtain ⟨_, hb⟩ := SendItem.sent.inj h2.symm
          rw [← hb]
          exact waitBuffer_le drains buf hok
        · rcases List.mem_cons.mp h2 with h3 | h3
          · exact absurd h3.symm (by simp)
          · exact ih _ _ _ _ f b h3
    · rw [if_neg hok] at h
      exact absurd h (waitBuffer_no_sent drains buf f b)

theorem sendChunks_waits : ∀ (fs : List (List Nat)) (drains : List Nat)
    (buf offset total : Nat) (ms : Nat),
    SendItem.waited ms ∈ sendChunks fs drains buf offset total → ms = pollIntervalMs := by
  intro fs
  induction fs with
  | nil => intro drains buf offset total ms h; simp [sendChunks] at h
  | cons g gs ih =>
    intro drains buf offset total ms h
    rw [sendChunks] at h
    by_cases hok : (waitBuffer drains buf).2.2.2 = true
    · rw [if_pos hok] at h
      rcases List.mem_append.mp h with h1 | h1
      · exact waitBuffer_waits drains buf ms h1
      · rcases List.mem_cons.mp h1 with h2 | h2
        · exact absurd h2.symm (by simp)
        · rcases List.mem_cons.mp h2 with h3 | h3
          · exact absurd h3.symm (by simp)
          · exact ih _ _ _ _ ms h3
    · rw [if_neg hok] at h
      exact waitBuffer_waits drains buf ms h

/-- C6: during a `sendFile` call, no binary frame is handed to the channel
while the buffered amount exceeds the high-water mark `chunkSize * 10 =
163840` — every `send` happens at a buffered amount `≤ 163840` — and the
backpressure wait suspends in fixed 100 ms polls. -/
theorem claim6_backpressure (bytes : List Nat) (m : Meta) (drains : List Nat)
    (buf0 : Nat) (f : List Nat) (b ms : Nat) :
    highWaterMark = 163840 ∧
    (SendItem.sent f b ∈ sendFileModel bytes m drains buf0 → b ≤ 163840) ∧
    (SendItem.waited ms ∈ sendFileModel bytes m drains buf0 → ms = 100) := by
  refine ⟨by norm_num [highWaterMark, chunkSize], ?_, ?_⟩
  · intro h
    have : b ≤ highWaterMark := by
      apply sendChunks_bounded (chunksOf chunkSize bytes) drains buf0 0 bytes.length f b
      simpa [sendFileModel] using h
    simpa [highWaterMark, chunkSize] using this
  · intro h
    have : ms = pollIntervalMs := by
      apply sendChunks_waits (chunksOf chunkSize bytes) drains buf0 0 bytes.length ms
      simpa [sendFileModel] using h
    simpa [pollIntervalMs] using this

theorem claim6_witness :
    SendItem.sent [5] 0 ∈ sendFileModel [5] ⟨[102], 1, [116]⟩ [] 0 ∧ (0 : Nat) ≤ 163840 :=
  ⟨by decide,
    (claim6_backpressure [5] ⟨[102], 1, [116]⟩ [] 0 [5] 0 100).2.1 (by decide)⟩

/-! ## Peer registry and disconnection (`disconnect`, lines 275-281;
`onclose`, lines 185-191) -/

/-- A registry entry (`P2PPeer`, lines 2-7): the flags record whether
`dataChannel` / `connection` are non-null. -/
structure MPeer where
  id : JStr
  name : JStr
  hasDataChannel : Bool
  hasConnection : Bool
  deriving DecidableEq, Repr

/-- The engine state: `private peers: Map<string, P2PPeer>`. -/
structure Engine where
  peers : List MPeer
  deriving DecidableEq, Repr

/-- Transport-level close calls issued by `disconnect`. -/
inductive CloseAct where
  | closeChannel (id : JStr)
  | closeConnection (id : JStr)
  deriving DecidableEq, Repr

/-- Models `disconnect()` (lines 275-281): `peers.forEach(peer => {
peer.dataChannel?.close(); peer.connection?.close(); }); peers.clear()`.
Returns the new engine state and the close calls issued, in order. -/
def disconnectModel (e : Engine) : Engine × List CloseAct :=
  (⟨[]⟩,
    e.peers.flatMap fun p =>
      (if p.hasDataChannel then [CloseAct.closeChannel p.id] else []) ++
        (if p.hasConnection then [CloseAct.closeConnection p.id] else []))

/-- Events arriving on one data channel, as the platform delivers them:
messages while the channel is open, and the close event.  A closed channel
delivers nothing further. -/
inductive ChanEvent where
  | message (msg : Msg)
  | closeEvt
  deriving DecidableEq, Repr

/-- Per-channel state: the `onmessage` closure state plus whether the
channel has closed. -/
structure ChanState where
  closed : Bool
  rs : RecvState
  deriving DecidableEq, Repr

/-- One channel callback dispatch: `onclose` (lines 185-191) removes the
peer and fires `onPeerDisconnected`; `onmessage` runs `recvStep`.  After
the channel has closed, no callback fires again. -/
def chanStep (peerName peerId : JStr) (s : ChanState) : ChanEvent → ChanState × List Event
  | ev =>
    if s.closed then (s, [])
    else
      match ev with
      | .closeEvt => ({ closed := true, rs := s.rs }, [Event.peerDisconnected peerId])
      | .message m =>
        let p := recvStep peerName s.rs m
        ({ closed := false, rs := p.1 }, p.2)

/-- Running a channel's callbacks over a sequence of channel events. -/
def processChan (peerName peerId : JStr) (s : ChanState) :
    List ChanEvent → ChanState × List Event
  | [] => (s, [])
  | ev :: rest =>
    let p := chanStep peerName peerId s ev
    let q := processChan peerName peerId p.1 rest
    (q.1, p.2 ++ q.2)

theorem processChan_append (peerName peerId : JStr) :
    ∀ (t1 t2 : List ChanEvent) (s : ChanState),
    processChan peerName peerId s (t1 ++ t2) =
      ((processChan peerName peerId (processChan peerName peerId s t1).1 t2).1,
        (processChan peerName peerId s t1).2 ++
          (processChan peerName peerId (processChan peerName peerId s t1).1 t2).2) := by
  intro t1
  induction t1 with
  | nil => intro t2 s; simp [processChan]
  | cons ev rest ih =>
    intro t2 s
    simp only [List.cons_append, processChan, List.append_eq]
    rw [ih]
    simp [List.append_assoc]

/-- A closed channel emits nothing on any further events. -/
theorem processChan_closed (peerName peerId : JStr) :
    ∀ (tr : List ChanEvent) (s : ChanState), s.closed = true →
    processChan peerName peerId s tr = (s, []) := by
  intro tr
  induction tr with
  | nil => intro s _; rfl
  | cons ev rest ih =>
    intro s h
    simp only [processChan, chanStep, h, if_pos]
    rw [ih s h]
    simp

theorem chanStep_close_closed (peerName peerId : JStr) (s : ChanState) :
    (chanStep peerName peerId s .closeEvt).1.closed = true := by
  simp only [chanStep]
  by_cases h : s.closed = true
  · simp [h]
  · simp at h; simp [h]

/-- C7: `disconnect()` clears the whole registry and issues a close on
every registered peer's data channel and connection; and once a channel's
close event has fired, the event stream of that channel is exactly the
stream up to the close — no event at all, in particular no `FileReceived`,
is emitted for anything after it, so an interrupted in-flight transfer is
abandoned without completion. -/
theorem claim7_disconnect (e : Engine) (peerName peerId : JStr)
    (t1 t2 : List ChanEvent) :
    (disconnectModel e).1.peers = [] ∧
    (∀ p ∈ e.peers, p.hasDataChannel = true →
      CloseAct.closeChannel p.id ∈ (disconnectModel e).2) ∧
    (∀ p ∈ e.peers, p.hasConnection = true →
      CloseAct.closeConnection p.id ∈ (disconnectModel e).2) ∧
    (processChan peerName peerId ⟨false, ⟨none, []⟩⟩ (t1 ++ ChanEvent.closeEvt :: t2)).2 =
      (processChan peerName peerId ⟨false, ⟨none, []⟩⟩ (t1 ++ [ChanEvent.closeEvt])).2 ∧
    (processChan peerName peerId ⟨false, ⟨none, []⟩⟩
        (t1 ++ ChanEvent.closeEvt :: t2)).1.closed = true := by
  refine ⟨rfl, ?_, ?_, ?_, ?_⟩
  · intro p hp h
    simp only [disconnectModel, List.mem_flatMap]
    exact ⟨p, hp, by simp [h]⟩
  · intro p hp h
    simp only [disconnectModel, List.mem_flatMap]
    exact ⟨p, hp, by simp [h]⟩
  · have hsplit : t1 ++ ChanEvent.closeEvt :: t2 = (t1 ++ [ChanEvent.closeEvt]) ++ t2 := by
      simp
    rw [hsplit, processChan_append]
    have hclosed : (processChan peerName peerId ⟨false, ⟨none, []⟩⟩
        (t1 ++ [ChanEvent.closeEvt])).1.closed = true := by
      rw [processChan_append]
      simp only [processChan]
      apply chanStep_close_closed
    rw [processChan_closed peerName peerId t2 _ hclosed]
    simp
  · have hsplit : t1 ++ ChanEvent.closeEvt :: t2 = (t1 ++ [ChanEvent.closeEvt]) ++ t2 := by
      simp
    rw [hsplit, processChan_append]
    have hclosed : (processChan peerName peerId ⟨false, ⟨none, []⟩⟩
        (t1 ++ [ChanEvent.closeEvt])).1.closed = true := by
      rw [processChan_append]
      simp only [processChan]
      apply chanStep_close_closed
    rw [processChan_closed peerName peerId t2 _ hclosed]
    exact hclosed

theorem claim7_witness :
    (⟨[], [], true, true⟩ : MPeer) ∈ (Engine.mk [⟨[], [], true, true⟩]).peers ∧
    (⟨[], [], true, true⟩ : MPeer).hasDataChannel = true ∧
    CloseAct.closeChannel [] ∈ (disconnectModel (Engine.mk [⟨[], [], true, true⟩])).2 :=
  ⟨by decide, by decide,
    (claim7_disconnect (Engine.mk [⟨[], [], true, true⟩]) [] [] [] []).2.1
      ⟨[], [], true, true⟩ (by decide) (by decide)⟩

/-! ## `createOffer` and the ICE-gathering wait (lines 41-86)

`createOffer` awaits a promise that resolves only when
`connection.iceGatheringState === 'complete'` (checked immediately and on
each `icegatheringstatechange` event, lines 66-76).  There is no timer in
this wait.  `trace t` tells whether the gathering state observed at the
`t`-th opportunity (the initial check, then each state-change event) is
`'complete'`. -/

/-- Scanning the gathering-state observations from index `t` on, for at
most `fuel` observations: the wait resolves at the first observation whose
state is `'complete'`, and is still pending (`none`) if none of the first
`fuel` observations is. -/
def waitIceFrom (trace : Nat → Bool) (t : Nat) : Nat → Option Nat
  | 0 => none
  | fuel + 1 => if trace t then some t else waitIceFrom trace (t + 1) fuel

/-- The promise of lines 66-76, observed for `fuel` opportunities. -/
def waitIce (trace : Nat → Bool) (fuel : Nat) : Option Nat :=
  waitIceFrom trace 0 fuel

/-- Models `createOffer()` after `setLocalDescription`: await the gathering wait,
then encode and return the offer descriptor (modelled as an opaque payload
`offer` here; the descriptor encoding itself is treated separately).
`none` means the call is still suspended after `fuel` observations — the
code has no timeout path and no error to produce. -/
def createOfferWait (trace : Nat → Bool) (fuel : Nat) (offer : JStr) : Option JStr :=
  match waitIce trace fuel with
  | some _ => some offer
  | none => none

/-- A gathering process that never reaches `'complete'` leaves
`createOffer` suspended forever: no number of observation opportunities
makes it return. -/
def createOfferNeverReturns (trace : Nat → Bool) (offer : JStr) : Prop :=
  ∀ fuel : Nat, createOfferWait trace fuel offer = none

theorem waitIceFrom_none (trace : Nat → Bool) (h : ∀ t, trace t = false) :
    ∀ (fuel t : Nat), waitIceFrom trace t fuel = none := by
  intro fuel
  induction fuel with
  | zero => intro t; rfl
  | succ f ih =>
    intro t
    simp only [waitIceFrom, h t]
    simpa using ih (t + 1)

/-- C9 counterexample: on a trace where ICE gathering never completes,
`createOffer` never returns — it waits unboundedly, and in particular
never fails with a `NegotiationTimeout` (no such path exists in the
code: the wait promise of lines 66-76 has no timer). -/
theorem claim9_no_timeout_counterexample :
    createOfferNeverReturns (fun _ => false) [] := by
  intro fuel
  simp only [createOfferWait, waitIce]
  rw [waitIceFrom_none (fun _ => false) (fun _ => rfl) fuel 0]

/-- C9 (amended): `createOffer`'s wait for network-path discovery is
unbounded: it returns exactly when some observation reports the gathering
state `'complete'`, resolving at the first such observation, and there is
no timeout — on a trace that never completes it stays suspended forever
(`claim9_no_timeout_counterexample`). -/
theorem claim9_wait_unbounded (trace : Nat → Bool) (fuel : Nat) (offer : JStr) :
    (createOfferWait trace fuel offer = some offer ↔
      ∃ t, t < fuel ∧ trace t = true ∧ ∀ u < t, trace u = false) ∧
    (createOfferWait trace fuel offer = none ↔ ∀ t < fuel, trace t = false) := by
  have key : ∀ (f s : Nat),
      (waitIceFrom trace s f = none ↔ ∀ t, s ≤ t → t < s + f → trace t = false) ∧
      ((∃ r, waitIceFrom trace s f = some r) ↔
        ∃ t, s ≤ t ∧ t < s + f ∧ trace t = true ∧ ∀ u, s ≤ u → u < t → trace u = false) := by
    intro f
    induction f with
    | zero =>
      intro s
      constructor
      · simp [waitIceFrom]; omega
      · simp [waitIceFrom]; omega
    | succ g ih =>
      intro s
      by_cases hs : trace s = true
      · constructor
        · simp only [waitIceFrom, hs, if_pos]
          constructor
          · intro h; simp at h
          · intro h
            have := h s le_rfl (by omega)
            rw [this] at hs; simp at hs
        · simp only [waitIceFrom, hs, if_pos]
          constructor
          · intro _
            exact ⟨s, le_rfl, by omega, hs, fun u h1 h2 => by omega⟩
          · intro _; exact ⟨s, rfl⟩
      · have hs' : trace s = false := by
          cases h : trace s
          · rfl
          · exact absurd h hs
        constructor
        · simp only [waitIceFrom, hs']
          rw [if_neg (by simp : ¬(false = true))]
          rw [(ih (s + 1)).1]
          constructor
          · intro h t h1 h2
            by_cases ht : t = s
            · rw [ht]; exact hs'
            · exact h t (by omega) (by omega)
          · intro h t h1 h2
            exact h t (by omega) (by omega)
        · simp only [waitIceFrom, hs']
          rw [if_neg (by simp : ¬(false = true))]
          rw [(ih (s + 1)).2]
          constructor
          · rintro ⟨t, h1, h2, h3, h4⟩
            refine ⟨t, by omega, by omega, h3, fun u hu1 hu2 => ?_⟩
            by_cases hu : u = s
            · rw [hu]; exact hs'
            · exact h4 u (by omega) hu2
          · rintro ⟨t, h1, h2, h3, h4⟩
            have hts : t ≠ s := by
              intro e; rw [e] at h3; rw [h3] at hs'; simp at hs'
            refine ⟨t, by omega, by omega, h3, fun u hu1 hu2 => h4 u (by omega) hu2⟩
  constructor
  · simp only [createOfferWait, waitIce]
    constructor
    · intro h
      cases hw : waitIce trace fuel with
      | none => rw [waitIce] at hw; rw [hw] at h; simp at h
      | some r =>
        rw [waitIce] at hw
        have := ((key fuel 0).2).mp ⟨r, hw⟩
        obtain ⟨t, _, h2, h3, h4⟩ := this
        exact ⟨t, by omega, h3, fun u hu => h4 u (by omega) hu⟩
    · rintro ⟨t, h1, h2, h3⟩
      have := ((key fuel 0).2).mpr ⟨t, by omega, by omega, h2, fun u _ hu => h3 u hu⟩
      obtain ⟨r, hr⟩ := this
      rw [hr]
  · simp only [createOfferWait, waitIce]
    constructor
    · intro h
      cases hw : waitIceFrom trace 0 fuel with
      | none =>
        intro t ht
        exact ((key fuel 0).1).mp hw t (by omega) (by omega)
      | some r => rw [hw] at h; simp at h
    · intro h
      rw [((key fuel 0).1).mpr (fun t _ h2 => h t (by omega))]

/-! ## Base64 (`btoa` / `atob`)

`createOffer`/`acceptOffer` produce descriptors with
`btoa(JSON.stringify(data))`; `acceptOffer`/`completeConnection` decode
with `JSON.parse(atob(code))`.  `btoa` maps a string of code units < 256
to canonical padded base64; `atob` inverts it and throws on input that is
not valid base64 (modelled as `none`). -/

/-- The base64 alphabet `A-Z a-z 0-9 + /`. -/
def b64char (n : Nat) : Nat :=
  if n < 26 then 65 + n
  else if n < 52 then 97 + (n - 26)
  else if n < 62 then 48 + (n - 52)
  else if n = 62 then 43
  else 47

/-- The inverse alphabet lookup; `none` on a character outside the
alphabet. -/
def b64val (c : Nat) : Option Nat :=
  if 65 ≤ c ∧ c ≤ 90 then some (c - 65)
  else if 97 ≤ c ∧ c ≤ 122 then some (c - 97 + 26)
  else if 48 ≤ c ∧ c ≤ 57 then some (c - 48 + 52)
  else if c = 43 then some 62
  else if c = 47 then some 63
  else none

/-- Models `btoa`: encode bytes three at a time into four alphabet characters,
padding the last group with `=` (61). -/
def b64encode : List Nat → List Nat
  | [] => []
  | [a] => [b64char (a / 4), b64char (a % 4 * 16), 61, 61]
  | [a, b] => [b64char (a / 4), b64char (a % 4 * 16 + b / 16), b64char (b % 16 * 4), 61]
  | a :: b :: c :: rest =>
    b64char (a / 4) :: b64char (a % 4 * 16 + b / 16) ::
      b64char (b % 16 * 4 + c / 64) :: b64char (c % 64) :: b64encode rest

/-- Models `atob`: decode four characters at a time, accepting `=` padding only
at the very end; `none` models the `InvalidCharacterError` thrown on
malformed base64. -/
def b64decode : List Nat → Option (List Nat)
  | [] => some []
  | c1 :: c2 :: c3 :: c4 :: rest =>
    match b64val c1, b64val c2 with
    | some v1, some v2 =>
      if c3 = 61 then
        if c4 = 61 ∧ rest = [] then some [v1 * 4 + v2 / 16] else none
      else
        match b64val c3 with
        | some v3 =>
          if c4 = 61 then
            if rest = [] then some [v1 * 4 + v2 / 16, v2 % 16 * 16 + v3 / 4] else none
          else
            match b64val c4 with
            | some v4 =>
              match b64decode rest with
              | some bs =>
                some ((v1 * 4 + v2 / 16) :: (v2 % 16 * 16 + v3 / 4) :: (v3 % 4 * 64 + v4) :: bs)
              | none => none
            | none => none
        | none => none
    | _, _ => none
  | _ => none

theorem b64val_b64char (n : Nat) (h : n < 64) : b64val (b64char n) = some n := by
  interval_cases n <;> rfl

theorem b64char_ne_61 (n : Nat) (h : n < 64) : b64char n ≠ 61 := by
  interval_cases n <;> decide

theorem b64decode_pad2 (c1 c2 : Nat) (v1 v2 : Nat)
    (h1 : b64val c1 = some v1) (h2 : b64val c2 = some v2) :
    b64decode [c1, c2, 61, 61] = some [v1 * 4 + v2 / 16] := by
  simp only [b64decode, h1, h2]
  simp

theorem b64decode_pad1 (c1 c2 c3 : Nat) (v1 v2 v3 : Nat)
    (h1 : b64val c1 = some v1) (h2 : b64val c2 = some v2) (h3 : b64val c3 = some v3)
    (n3 : c3 ≠ 61) :
    b64decode [c1, c2, c3, 61] = some [v1 * 4 + v2 / 16, v2 % 16 * 16 + v3 / 4] := by
  simp only [b64decode, h1, h2, h3]
  rw [if_neg n3]
  simp

theorem b64decode_group (c1 c2 c3 c4 : Nat) (rest : List Nat) (v1 v2 v3 v4 : Nat)
    (h1 : b64val c1 = some v1) (h2 : b64val c2 = some v2) (h3 : b64val c3 = some v3)
    (h4 : b64val c4 = some v4) (n3 : c3 ≠ 61) (n4 : c4 ≠ 61) :
    b64decode (c1 :: c2 :: c3 :: c4 :: rest) =
      match b64decode rest with
      | some bs =>
        some ((v1 * 4 + v2 / 16) :: (v2 % 16 * 16 + v3 / 4) :: (v3 % 4 * 64 + v4) :: bs)
      | none => none := by
  simp only [b64decode, h1, h2, h3, h4]
  rw [if_neg n3, if_neg n4]

/-- Decoding inverts encoding on byte strings (every `btoa` input the code
produces has code units < 256, else `btoa` itself would throw). -/
theorem b64decode_encode : ∀ (bs : List Nat), (∀ x ∈ bs, x < 256) →
    b64decode (b64encode bs) = some bs := by
  intro bs
  induction bs using b64encode.induct with
  | case1 => intro _; rfl
  | case2 a =>
    intro h
    have ha : a < 256 := h a (by simp)
    have h1 : a / 4 < 64 := by omega
    have h2 : a % 4 * 16 < 64 := by omega
    show b64decode [b64char (a / 4), b64char (a % 4 * 16), 61, 61] = some [a]
    rw [b64decode_pad2 _ _ _ _ (b64val_b64char _ h1) (b64val_b64char _ h2)]
    have e1 : a % 4 * 16 / 16 = a % 4 := Nat.mul_div_cancel _ (by norm_num)
    rw [e1, show a / 4 * 4 + a % 4 = a from by omega]
  | case3 a b =>
    intro h
    have ha : a < 256 := h a (by simp)
    have hb : b < 256 := h b (by simp)
    have h1 : a / 4 < 64 := by omega
    have h2 : a % 4 * 16 + b / 16 < 64 := by omega
    have h3 : b % 16 * 4 < 64 := by omega
    show b64decode [b64char (a / 4), b64char (a % 4 * 16 + b / 16),
      b64char (b % 16 * 4), 61] = some [a, b]
    rw [b64decode_pad1 _ _ _ _ _ _ (b64val_b64char _ h1) (b64val_b64char _ h2)
      (b64val_b64char _ h3) (b64char_ne_61 _ h3)]
    have e1 : (a % 4 * 16 + b / 16) / 16 = a % 4 := by omega
    have e2 : (a % 4 * 16 + b / 16) % 16 = b / 16 := by omega
    have e3 : b % 16 * 4 / 4 = b % 16 := Nat.mul_div_cancel _ (by norm_num)
    rw [e1, e2, e3, show a / 4 * 4 + a % 4 = a from by omega,
      show b / 16 * 16 + b % 16 = b from by omega]
  | case4 a b c rest ih =>
    intro h
    have ha : a < 256 := h a (by simp)
    have hb : b < 256 := h b (by simp)
    have hc : c < 256 := h c (by simp)
    have h1 : a / 4 < 64 := by omega
    have h2 : a % 4 * 16 + b / 16 < 64 := by omega
    have h3 : b % 16 * 4 + c / 64 < 64 := by omega
    have h4 : c % 64 < 64 := by omega
    show b64decode (b64char (a / 4) :: b64char (a % 4 * 16 + b / 16) ::
      b64char (b % 16 * 4 + c / 64) :: b64char (c % 64) :: b64encode rest) =
      some (a :: b :: c :: rest)
    rw [b64decode_group _ _ _ _ _ _ _ _ _ (b64val_b64char _ h1) (b64val_b64char _ h2)
      (b64val_b64char _ h3) (b64val_b64char _ h4) (b64char_ne_61 _ h3) (b64char_ne_61 _ h4)]
    rw [ih (fun x hx => h x (by simp [hx]))]
    have e1 : (a % 4 * 16 + b / 16) / 16 = a % 4 := by omega
    have e2 : (a % 4 * 16 + b / 16) % 16 = b / 16 := by omega
    have e3 : (b % 16 * 4 + c / 64) / 4 = b % 16 := by omega
    have e4 : (b % 16 * 4 + c / 64) % 4 = c / 64 := by omega
    rw [e1, e2, e3, e4, show a / 4 * 4 + a % 4 = a from by omega,
      show b / 16 * 16 + b % 16 = b from by omega,
      show c / 64 * 64 + c % 64 = c from by omega]

/-! ## JSON (`JSON.stringify` / `JSON.parse`)

The code serializes only objects whose values are strings and nested
objects of strings (the descriptor objects of lines 78-83 and 127-132 and
the metadata object of lines 240-244), and parses what the other side
produced the same way.  The model covers exactly this fragment of JSON —
string and object values, whitespace-free text — with `JSON.stringify`'s
string escaping (`\"`, `\\`, `\b`, `\t`, `\n`, `\f`, `\r`, `\u00XX` for
the other control characters) and `JSON.parse`'s full escape repertoire. -/

/-- A JSON value of the fragment the code exchanges.  Object fields keep
their textual order. -/
inductive Json where
  | str (s : JStr)
  | obj (fields : List (JStr × Json))

/-- Hexadecimal digit characters, lowercase, as emitted in `\u00XX`
escapes. -/
def hexDigitChar (n : Nat) : Nat :=
  if n < 10 then 48 + n else 87 + n

/-- The value of a hexadecimal digit character; `none` if not a hex
digit. -/
def hexVal (c : Nat) : Option Nat :=
  if 48 ≤ c ∧ c ≤ 57 then some (c - 48)
  else if 97 ≤ c ∧ c ≤ 102 then some (c - 97 + 10)
  else if 65 ≤ c ∧ c ≤ 70 then some (c - 65 + 10)
  else none

/-- Implements `JSON.stringify`'s escaping of one string character. -/
def escChar (c : Nat) : List Nat :=
  if c = 34 then [92, 34]
  else if c = 92 then [92, 92]
  else if c = 8 then [92, 98]
  else if c = 9 then [92, 116]
  else if c = 10 then [92, 110]
  else if c = 12 then [92, 102]
  else if c = 13 then [92, 114]
  else if c < 32 then [92, 117, 48, 48, hexDigitChar (c / 16), hexDigitChar (c % 16)]
  else [c]

/-- Computes `JSON.stringify` of a string value: a quoted, escaped literal. -/
def stringifyStr (s : JStr) : List Nat :=
  34 :: (s.flatMap escChar ++ [34])

/-- The value of a single-character (non-`\u`) escape, as accepted by
`JSON.parse`. -/
def escVal (e : Nat) : Option Nat :=
  if e = 34 then some 34
  else if e = 92 then some 92
  else if e = 47 then some 47
  else if e = 98 then some 8
  else if e = 102 then some 12
  else if e = 110 then some 10
  else if e = 114 then some 13
  else if e = 116 then some 9
  else none

/-- Parsing the body of a string literal (after the opening quote):
returns the decoded string and the input remaining after the closing
quote. -/
def parseStrBody : List Nat → Option (JStr × List Nat)
  | [] => none
  | c :: rest =>
    if c = 34 then some ([], rest)
    else if c = 92 then
      match rest with
      | [] => none
      | e :: rest2 =>
        if e = 117 then
          match rest2 with
          | h1 :: h2 :: h3 :: h4 :: rest3 =>
            match hexVal h1, hexVal h2, hexVal h3, hexVal h4 with
            | some v1, some v2, some v3, some v4 =>
              match parseStrBody rest3 with
              | some (s, r) => some ((((v1 * 16 + v2) * 16 + v3) * 16 + v4) :: s, r)
              | none => none
            | _, _, _, _ => none
          | _ => none
        else
          match escVal e with
          | some ch =>
            match parseStrBody rest2 with
            | some (s, r) => some (ch :: s, r)
            | none => none
          | none => none
    else
      match parseStrBody rest with
      | some (s, r) => some (c :: s, r)
      | none => none

mutual

/-- Models `JSON.parse` on the modelled fragment: a value is a string literal or
an object.  The fuel bounds nesting; `parseJson` below supplies enough for
any input. -/
def parseValue : Nat → List Nat → Option (Json × List Nat)
  | 0, _ => none
  | fuel + 1, input =>
    match input with
    | [] => none
    | c :: rest =>
      if c = 34 then
        match parseStrBody rest with
        | some (s, r) => some (Json.str s, r)
        | none => none
      else if c = 123 then
        match rest with
        | [] => none
        | d :: rest2 =>
          if d = 125 then some (Json.obj [], rest2)
          else
            match parseFields fuel (d :: rest2) with
            | some (fs, r) => some (Json.obj fs, r)
            | none => none
      else none

/-- Parsing the fields of an object after its opening brace, when at least
one field is present: `"key":value` then `,` and more fields, or `}`. -/
def parseFields : Nat → List Nat → Option (List (JStr × Json) × List Nat)
  | 0, _ => none
  | fuel + 1, input =>
    match input with
    | [] => none
    | c :: rest =>
      if c = 34 then
        match parseStrBody rest with
        | some (key, r1) =>
          match r1 with
          | [] => none
          | c2 :: r2 =>
            if c2 = 58 then
              match parseValue fuel r2 with
              | some (v, r3) =>
                match r3 with
                | [] => none
                | c3 :: r4 =>
                  if c3 = 44 then
                    match parseFields fuel r4 with
                    | some (fs, r5) => some ((key, v) :: fs, r5)
                    | none => none
                  else if c3 = 125 then some ([(key, v)], r4)
                  else none
              | none => none
            else none
        | none => none
      else none

end

/-- Models `JSON.parse` of a whole text: parse one value and require the input to
be fully consumed (trailing garbage is a `SyntaxError`). -/
def parseJson (input : List Nat) : Option Json :=
  match parseValue (input.length + 1) input with
  | some (j, []) => some j
  | _ => none

/-- Property access `obj.field` on a parsed JSON value: `none` models
`undefined` (missing field, or access on a non-object).  With duplicate
keys, `JSON.parse` keeps the last occurrence. -/
def jget (j : Json) (key : JStr) : Option Json :=
  match j with
  | .str _ => none
  | .obj fields => fields.foldl (fun acc p => if p.1 = key then some p.2 else acc) none

/-- Property access that expects a string value, as used for the
`peerId` / `peerName` fields: `none` for a missing or non-string field. -/
def jgetStr (j : Json) (key : JStr) : Option JStr :=
  match jget j key with
  | some (.str s) => some s
  | _ => none

theorem hexVal_hexDigitChar (n : Nat) (h : n < 16) : hexVal (hexDigitChar n) = some n := by
  interval_cases n <;> rfl

/-- Parsing inverts `JSON.stringify`'s string escaping: the string body
parser consumes exactly the escaped characters and the closing quote. -/
theorem parseStrBody_rt : ∀ (s : JStr) (r : List Nat),
    parseStrBody (s.flatMap escChar ++ 34 :: r) = some (s, r) := by
  intro s
  induction s with
  | nil =>
    intro r
    simp only [List.flatMap_nil, List.nil_append]
    rw [parseStrBody.eq_def]
    simp
  | cons c s ih =>
    intro r
    have hstep : (c :: s).flatMap escChar ++ 34 :: r
        = escChar c ++ (s.flatMap escChar ++ 34 :: r) := by
      simp [List.flatMap_cons, List.append_assoc]
    rw [hstep]
    by_cases h1 : c = 34
    · subst h1
      simp only [escChar, if_pos rfl, List.cons_append]
      rw [parseStrBody.eq_def]
      simp [escVal, ih]
    by_cases h2 : c = 92
    · subst h2
      have e1 : escChar 92 = [92, 92] := by simp [escChar]
      rw [e1]
      simp only [List.cons_append]
      rw [parseStrBody.eq_def]
      simp [escVal, ih]
    by_cases h3 : c = 8
    · subst h3
      have e1 : escChar 8 = [92, 98] := by simp [escChar]
      rw [e1]
      simp only [List.cons_append]
      rw [parseStrBody.eq_def]
      simp [escVal, ih]
    by_cases h4 : c = 9
    · subst h4
      have e1 : escChar 9 = [92, 116] := by simp [escChar]
      rw [e1]
      simp only [List.cons_append]
      rw [parseStrBody.eq_def]
      simp [escVal, ih]
    by_cases h5 : c = 10
    · subst h5
      have e1 : escChar 10 = [92, 110] := by simp [escChar]
      rw [e1]
      simp only [List.cons_append]
      rw [parseStrBody.eq_def]
      simp [escVal, ih]
    by_cases h6 : c = 12
    · subst h6
      have e1 : escChar 12 = [92, 102] := by simp [escChar]
      rw [e1]
      simp only [List.cons_append]
      rw [parseStrBody.eq_def]
      simp [escVal, ih]
    by_cases h7 : c = 13
    · subst h7
      have e1 : escChar 13 = [92, 114] := by simp [escChar]
      rw [e1]
      simp only [List.cons_append]
      rw [parseStrBody.eq_def]
      simp [escVal, ih]
    by_cases h8 : c < 32
    · have e1 : escChar c
          = [92, 117, 48, 48, hexDigitChar (c / 16), hexDigitChar (c % 16)] := by
        simp [escChar, h1, h2, h3, h4, h5, h6, h7, h8]
      rw [e1]
      simp only [List.cons_append]
      have hv1 : hexVal 48 = some 0 := rfl
      have hv3 : hexVal (hexDigitChar (c / 16)) = some (c / 16) :=
        hexVal_hexDigitChar _ (by omega)
      have hv4 : hexVal (hexDigitChar (c % 16)) = some (c % 16) :=
        hexVal_hexDigitChar _ (by omega)
      rw [parseStrBody.eq_def]
      simp [hv1, hv3, hv4, ih]
      omega
    · have e1 : escChar c = [c] := by
        simp [escChar, h1, h2, h3, h4, h5, h6, h7, h8]
      rw [e1]
      simp only [List.cons_append]
      rw [parseStrBody.eq_def]
      simp [h1, h2, ih]

/-! ## Connection descriptors (`createOffer` lines 78-85, `acceptOffer`
lines 127-135, decode sites lines 90 and 144) -/

/-- Key `"type"`. -/
def typeKey : JStr := [116, 121, 112, 101]
/-- Key `"sdp"`. -/
def sdpKey : JStr := [115, 100, 112]
/-- Key `"peerId"`. -/
def peerIdKey : JStr := [112, 101, 101, 114, 73, 100]
/-- Key `"peerName"`. -/
def peerNameKey : JStr := [112, 101, 101, 114, 78, 97, 109, 101]

/-- The `RTCSessionDescription` stored in the descriptor's `sdp` field; it
serializes as `{"type": ..., "sdp": ...}`. -/
structure SessionDesc where
  sdType : JStr
  sdpText : JStr
  deriving DecidableEq, Repr

/-- The connection descriptor object built by `createOffer` (lines 78-83)
and `acceptOffer` (lines 127-132): `{type, sdp, peerId, peerName}`. -/
structure Descriptor where
  role : JStr
  sdp : SessionDesc
  peerId : JStr
  peerName : JStr
  deriving DecidableEq, Repr

/-- The JSON value of the `sdp` field. -/
def sdToJson (sd : SessionDesc) : Json :=
  .obj [(typeKey, .str sd.sdType), (sdpKey, .str sd.sdpText)]

/-- The JSON value of a descriptor. -/
def descToJson (d : Descriptor) : Json :=
  .obj [(typeKey, .str d.role), (sdpKey, sdToJson d.sdp),
    (peerIdKey, .str d.peerId), (peerNameKey, .str d.peerName)]

/-- Computes `JSON.stringify` of the `sdp` object (field order as serialized). -/
def stringifySd (sd : SessionDesc) : List Nat :=
  123 :: (stringifyStr typeKey ++ 58 :: (stringifyStr sd.sdType ++
    44 :: (stringifyStr sdpKey ++ 58 :: (stringifyStr sd.sdpText ++ [125]))))

/-- Computes `JSON.stringify(offerData)` / `JSON.stringify(answerData)`: the
serialized descriptor, fields in construction order. -/
def stringifyDesc (d : Descriptor) : List Nat :=
  123 :: (stringifyStr typeKey ++ 58 :: (stringifyStr d.role ++
    44 :: (stringifyStr sdpKey ++ 58 :: (stringifySd d.sdp ++
      44 :: (stringifyStr peerIdKey ++ 58 :: (stringifyStr d.peerId ++
        44 :: (stringifyStr peerNameKey ++ 58 :: (stringifyStr d.peerName ++ [125]))))))))

/-- Computes `btoa(JSON.stringify(data))` — the encoded descriptor exchanged
out-of-band (lines 85 and 135). -/
def encodeDesc (d : Descriptor) : JStr :=
  b64encode (stringifyDesc d)

/-- Computes `JSON.parse(atob(code))` — the decode performed by `acceptOffer`
(line 90) and `completeConnection` (line 144); `none` models the thrown
error on bad base64 or invalid JSON. -/
def decodeCode (code : JStr) : Option Json :=
  match b64decode code with
  | some bs => parseJson bs
  | none => none

/-- A string `btoa` accepts: every code unit below 256. -/
def wfStr (s : JStr) : Bool :=
  s.all (fun c => c < 256)

/-- A well-formed descriptor: all component strings are `btoa`-encodable. -/
def wfDesc (d : Descriptor) : Bool :=
  wfStr d.role && wfStr d.sdp.sdType && wfStr d.sdp.sdpText &&
    wfStr d.peerId && wfStr d.peerName

theorem stringifyStr_append (s : JStr) (z : List Nat) :
    stringifyStr s ++ z = 34 :: (s.flatMap escChar ++ 34 :: z) := by
  simp [stringifyStr]

theorem parseValue_succ (fuel : Nat) (input : List Nat) :
    parseValue (fuel + 1) input =
      match input with
      | [] => none
      | c :: rest =>
        if c = 34 then
          match parseStrBody rest with
          | some (s, r) => some (Json.str s, r)
          | none => none
        else if c = 123 then
          match rest with
          | [] => none
          | d :: rest2 =>
            if d = 125 then some (Json.obj [], rest2)
            else
              match parseFields fuel (d :: rest2) with
              | some (fs, r) => some (Json.obj fs, r)
              | none => none
        else none := rfl

theorem parseFields_succ (fuel : Nat) (input : List Nat) :
    parseFields (fuel + 1) input =
      match input with
      | [] => none
      | c :: rest =>
        if c = 34 then
          match parseStrBody rest with
          | some (key, r1) =>
            match r1 with
            | [] => none
            | c2 :: r2 =>
              if c2 = 58 then
                match parseValue fuel r2 with
                | some (v, r3) =>
                  match r3 with
                  | [] => none
                  | c3 :: r4 =>
                    if c3 = 44 then
                      match parseFields fuel r4 with
                      | some (fs, r5) => some ((key, v) :: fs, r5)
                      | none => none
                    else if c3 = 125 then some ([(key, v)], r4)
                    else none
                | none => none
              else none
          | none => none
        else none := rfl

theorem parseValue_str (fuel : Nat) (s : JStr) (r : List Nat) :
    parseValue (fuel + 1) (stringifyStr s ++ r) = some (Json.str s, r) := by
  rw [stringifyStr_append, parseValue_succ]
  simp [parseStrBody_rt]

theorem parseFields_strField (fuel : Nat) (k s : JStr) (rest : List Nat) :
    parseFields (fuel + 2) (stringifyStr k ++ 58 :: (stringifyStr s ++ 44 :: rest)) =
      match parseFields (fuel + 1) rest with
      | some (fs, r) => some ((k, Json.str s) :: fs, r)
      | none => none := by
  rw [stringifyStr_append, parseFields_succ]
  simp [parseStrBody_rt, parseValue_str]

theorem parseFields_strFieldEnd (fuel : Nat) (k s : JStr) (rest : List Nat) :
    parseFields (fuel + 2) (stringifyStr k ++ 58 :: (stringifyStr s ++ 125 :: rest)) =
      some ([(k, Json.str s)], rest) := by
  rw [stringifyStr_append, parseFields_succ]
  simp [parseStrBody_rt, parseValue_str]

theorem parseValue_sdObj (fuel : Nat) (sd : SessionDesc) (r : List Nat) :
    parseValue (fuel + 4) (stringifySd sd ++ r) = some (sdToJson sd, r) := by
  have h1 : stringifySd sd ++ r
      = 123 :: (34 :: (typeKey.flatMap escChar ++ 34 :: (58 :: (stringifyStr sd.sdType ++
          44 :: (stringifyStr sdpKey ++ 58 :: (stringifyStr sd.sdpText ++ 125 :: r)))))) := by
    simp only [stringifySd]
    rw [stringifyStr_append typeKey]
    simp [List.append_assoc]
  rw [h1, parseValue_succ]
  simp only []
  rw [show (34 : Nat) = 34 from rfl]
  simp only [show ¬((123 : Nat) = 34) from by decide, if_false,
    show ((123 : Nat) = 123) from rfl, if_true]
  rw [← stringifyStr_append typeKey]
  rw [parseFields_strField]
  rw [parseFields_strFieldEnd]
  simp [sdToJson]

theorem parseFields_sdField (fuel : Nat) (k : JStr) (sd : SessionDesc) (rest : List Nat) :
    parseFields (fuel + 5) (stringifyStr k ++ 58 :: (stringifySd sd ++ 44 :: rest)) =
      match parseFields (fuel + 4) rest with
      | some (fs, r) => some ((k, sdToJson sd) :: fs, r)
      | none => none := by
  rw [stringifyStr_append, parseFields_succ]
  simp [parseStrBody_rt, parseValue_sdObj]

/-- Theorem: `JSON.parse` recovers the descriptor object from its serialization,
leaving any continuation untouched. -/
theorem parseValue_desc (fuel : Nat) (d : Descriptor) (r : List Nat) :
    parseValue (fuel + 8) (stringifyDesc d ++ r) = some (descToJson d, r) := by
  have h1 : stringifyDesc d ++ r
      = 123 :: (34 :: (typeKey.flatMap escChar ++ 34 :: (58 :: (stringifyStr d.role ++
          44 :: (stringifyStr sdpKey ++ 58 :: (stringifySd d.sdp ++
            44 :: (stringifyStr peerIdKey ++ 58 :: (stringifyStr d.peerId ++
              44 :: (stringifyStr peerNameKey ++ 58 :: (stringifyStr d.peerName ++
                125 :: r)))))))))) := by
    simp only [stringifyDesc]
    rw [stringifyStr_append typeKey]
    simp [List.append_assoc]
  rw [h1, parseValue_succ]
  simp only [show ¬((123 : Nat) = 34) from by decide, if_false,
    show ((123 : Nat) = 123) from rfl, if_true]
  rw [← stringifyStr_append typeKey]
  rw [parseFields_strField]
  rw [parseFields_sdField]
  rw [parseFields_strField]
  rw [parseFields_strFieldEnd]
  simp [descToJson]

theorem hexDigitChar_lt (n : Nat) (h : n < 16) : hexDigitChar n < 256 := by
  simp only [hexDigitChar]
  split_ifs <;> omega

theorem escChar_lt (a : Nat) (h : a < 256) : ∀ x ∈ escChar a, x < 256 := by
  intro x hx
  simp only [escChar] at hx
  split_ifs at hx with e1 e2 e3 e4 e5 e6 e7 e8
  · simp at hx; rcases hx with rfl | rfl <;> omega
  · simp at hx; omega
  · simp at hx; rcases hx with rfl | rfl <;> omega
  · simp at hx; rcases hx with rfl | rfl <;> omega
  · simp at hx; rcases hx with rfl | rfl <;> omega
  · simp at hx; rcases hx with rfl | rfl <;> omega
  · simp at hx; rcases hx with rfl | rfl <;> omega
  · simp only [List.mem_cons, List.not_mem_nil, or_false] at hx
    rcases hx with rfl | rfl | rfl | rfl | rfl | rfl
    · omega
    · omega
    · omega
    · omega
    · exact hexDigitChar_lt _ (by omega)
    · exact hexDigitChar_lt _ (by omega)
  · simp only [List.mem_cons, List.not_mem_nil, or_false] at hx
    subst hx
    exact h

theorem wfStr_iff (s : JStr) : wfStr s = true ↔ ∀ c ∈ s, c < 256 := by
  simp [wfStr, List.all_eq_true]

theorem wfStr_stringifyStr (s : JStr) (h : wfStr s = true) :
    wfStr (stringifyStr s) = true := by
  rw [wfStr_iff] at h ⊢
  intro c hc
  simp only [stringifyStr, List.mem_cons, List.mem_append, List.mem_flatMap,
    List.mem_singleton] at hc
  rcases hc with hc | hc
  · omega
  rcases hc with ⟨a, ha, hae⟩ | hc
  · exact escChar_lt a (h a ha) c hae
  · simp_all

theorem wfStr_nil : wfStr [] = true := rfl

theorem wfStr_append (l1 l2 : List Nat) : wfStr (l1 ++ l2) = (wfStr l1 && wfStr l2) := by
  simp [wfStr]

theorem wfStr_cons (c : Nat) (l : List Nat) :
    wfStr (c :: l) = (decide (c < 256) && wfStr l) := by
  simp [wfStr]

theorem wfStr_stringifyDesc (d : Descriptor) (h : wfDesc d = true) :
    wfStr (stringifyDesc d) = true := by
  simp only [wfDesc, Bool.and_eq_true] at h
  obtain ⟨⟨⟨⟨h1, h2⟩, h3⟩, h4⟩, h5⟩ := h
  simp [stringifyDesc, stringifySd, wfStr_cons, wfStr_append,
    wfStr_stringifyStr _ h1, wfStr_stringifyStr _ h2, wfStr_stringifyStr _ h3,
    wfStr_stringifyStr _ h4, wfStr_stringifyStr _ h5,
    show wfStr typeKey = true from by decide,
    show wfStr sdpKey = true from by decide,
    show wfStr peerIdKey = true from by decide,
    show wfStr peerNameKey = true from by decide,
    wfStr_nil, wfStr_stringifyStr]

theorem stringifyDesc_len (d : Descriptor) : 7 ≤ (stringifyDesc d).length := by
  simp [stringifyDesc, stringifySd, stringifyStr, List.length_append]
  omega

/-- Decoding the encoded descriptor recovers its JSON object exactly. -/
theorem decodeCode_encodeDesc (d : Descriptor) (h : wfDesc d = true) :
    decodeCode (encodeDesc d) = some (descToJson d) := by
  simp only [encodeDesc, decodeCode]
  rw [b64decode_encode _ ((wfStr_iff _).mp (wfStr_stringifyDesc d h))]
  simp only [parseJson]
  have hlen : 7 ≤ (stringifyDesc d).length := stringifyDesc_len d
  rw [show (stringifyDesc d).length + 1 = ((stringifyDesc d).length - 7) + 8 from by omega]
  have hparse := parseValue_desc ((stringifyDesc d).length - 7) d []
  rw [List.append_nil] at hparse
  rw [hparse]

/-- The field extraction performed on a decoded descriptor: `.type`,
`.sdp` (with its own `.type`/`.sdp`), `.peerId`, `.peerName`. -/
def jsonToDesc (j : Json) : Option Descriptor :=
  match jget j typeKey, jget j sdpKey, jget j peerIdKey, jget j peerNameKey with
  | some (.str role), some sdj, some (.str pid), some (.str pname) =>
    match jget sdj typeKey, jget sdj sdpKey with
    | some (.str st), some (.str sb) => some ⟨role, ⟨st, sb⟩, pid, pname⟩
    | _, _ => none
  | _, _, _, _ => none

theorem jsonToDesc_descToJson (d : Descriptor) : jsonToDesc (descToJson d) = some d := by
  simp [jsonToDesc, descToJson, sdToJson, jget, typeKey, sdpKey, peerIdKey, peerNameKey]

/-- C2: decoding the encoding of a well-formed connection descriptor
yields it back: `JSON.parse(atob(btoa(JSON.stringify(x))))` is exactly the
JSON object built from `x`, and reading its fields recovers every
component of `x`. -/
theorem claim2_descriptor_roundtrip (d : Descriptor) (h : wfDesc d = true) :
    decodeCode (encodeDesc d) = some (descToJson d) ∧
    jsonToDesc (descToJson d) = some d :=
  ⟨decodeCode_encodeDesc d h, jsonToDesc_descToJson d⟩

theorem claim2_witness :
    wfDesc ⟨[111, 102, 102, 101, 114], ⟨[111, 102, 102, 101, 114], [118, 61, 48, 10]⟩,
      [105, 100, 95, 49], [110, 97, 109, 101]⟩ = true ∧
    decodeCode (encodeDesc ⟨[111, 102, 102, 101, 114],
        ⟨[111, 102, 102, 101, 114], [118, 61, 48, 10]⟩,
        [105, 100, 95, 49], [110, 97, 109, 101]⟩) =
      some (descToJson ⟨[111, 102, 102, 101, 114],
        ⟨[111, 102, 102, 101, 114], [118, 61, 48, 10]⟩,
        [105, 100, 95, 49], [110, 97, 109, 101]⟩) :=
  ⟨by decide,
    (claim2_descriptor_roundtrip ⟨[111, 102, 102, 101, 114],
      ⟨[111, 102, 102, 101, 114], [118, 61, 48, 10]⟩,
      [105, 100, 95, 49], [110, 97, 109, 101]⟩ (by decide)).1⟩

/-! ## `acceptOffer` (lines 88-140)

`acceptOffer` decodes with `JSON.parse(atob(offerCode))` (both throw on
structural errors), builds a peer whose id/name are `offerData.peerId` /
`offerData.peerName` (read without validation — `undefined` when missing),
applies `offerData.sdp` via `setRemoteDescription` (which rejects a
missing or unacceptable description), and on success registers the peer
and returns the encoded answer `{type: 'answer', sdp, peerId, peerName}`.
It never reads `offerData.type`.  `applyOk` abstracts which session
descriptions `setRemoteDescription` accepts; answer creation, local
description and ICE gathering are modelled as succeeding with the local
session description `localDesc`. -/

/-- The errors `acceptOffer` can propagate: `atob` failure, `JSON.parse`
failure, or `setRemoteDescription` rejection. -/
inductive AcceptErr where
  | badBase64
  | badJson
  | applyFailed
  deriving DecidableEq, Repr

/-- The string `"answer"`. -/
def answerRole : JStr := [97, 110, 115, 119, 101, 114]

/-- Models `acceptOffer(offerCode)`: on success, the encoded answer descriptor
together with the `peerId`/`peerName` under which the remote peer was
registered (`none` = `undefined`). -/
def acceptOfferModel (applyOk : Json → Bool) (localDesc : SessionDesc)
    (localId localName : JStr) (offerCode : JStr) :
    Except AcceptErr (JStr × Option JStr × Option JStr) :=
  match b64decode offerCode with
  | none => .error .badBase64
  | some bs =>
    match parseJson bs with
    | none => .error .badJson
    | some offerData =>
      match jget offerData sdpKey with
      | none => .error .applyFailed
      | some sdp =>
        if applyOk sdp = true then
          .ok (encodeDesc ⟨answerRole, localDesc, localId, localName⟩,
            jgetStr offerData peerIdKey, jgetStr offerData peerNameKey)
        else .error .applyFailed

/-- Whether an `acceptOffer` run returned an answer. -/
def acceptOk {α : Type} : Except AcceptErr α → Bool
  | .ok _ => true
  | .error _ => false

/-- The session description of the counterexample offer: the object
`{"type":"offer","sdp":"v=0"}` — exactly the shape an
`RTCSessionDescription` serializes to, so `setRemoteDescription`
accepting it is the platform's behaviour on a well-formed description. -/
def noTypeOfferSd : SessionDesc :=
  ⟨[111, 102, 102, 101, 114], [118, 61, 48]⟩

/-- The JSON text
`{"sdp":{"type":"offer","sdp":"v=0"},"peerId":"a","peerName":"b"}` — a
well-formed descriptor object with a well-formed session description,
missing only the required outer field `type`. -/
def noTypeOfferJson : List Nat :=
  123 :: (stringifyStr sdpKey ++ 58 :: (stringifySd noTypeOfferSd ++
    44 :: (stringifyStr peerIdKey ++ 58 :: (stringifyStr [97] ++
      44 :: (stringifyStr peerNameKey ++ 58 :: (stringifyStr [98] ++ [125]))))))

/-- The JSON value of `noTypeOfferJson`. -/
def noTypeOfferValue : Json :=
  .obj [(sdpKey, sdToJson noTypeOfferSd), (peerIdKey, .str [97]), (peerNameKey, .str [98])]

/-- A realizable `setRemoteDescription` acceptance predicate: accept
exactly the values that convert to an `RTCSessionDescriptionInit` carrying
`type` and `sdp` strings — a primitive string (or any object without
them) is rejected, as the real API does deterministically. -/
def sdpShaped (j : Json) : Bool :=
  (jgetStr j typeKey).isSome && (jgetStr j sdpKey).isSome

/-- C8 counterexample: a structurally deficient descriptor — valid base64
of a valid JSON object that lacks the required outer field `type`, while
its `sdp` is a well-formed session-description object the platform
accepts — does not make `acceptOffer` fail: the code never reads
`offerData.type`, so the call returns an answer instead of failing with
`MalformedDescriptor`.  The same holds for missing `peerId`/`peerName`:
they are read without validation. -/
theorem claim8_missing_field_counterexample :
    decodeCode (b64encode noTypeOfferJson) = some noTypeOfferValue ∧
    jget noTypeOfferValue typeKey = none ∧
    jget noTypeOfferValue sdpKey = some (sdToJson noTypeOfferSd) ∧
    sdpShaped (sdToJson noTypeOfferSd) = true ∧
    acceptOk (acceptOfferModel sdpShaped ⟨[], []⟩ [] []
      (b64encode noTypeOfferJson)) = true :=
  ⟨rfl, rfl, rfl, rfl, rfl⟩

/-- C8 (amended): `acceptOffer` fails on bad base64 and on invalid JSON
(the `MalformedDescriptor` cases that actually exist), and fails when the
`sdp` field is missing or the description is rejected — but a well-formed
JSON object lacking only `type`, `peerId` or `peerName` is not rejected:
with an acceptable `sdp` the call returns an answer descriptor
(`claim8_missing_field_counterexample`). -/
theorem claim8_accept_errors (applyOk : Json → Bool) (ld : SessionDesc)
    (lid lname : JStr) (code : JStr) :
    (b64decode code = none →
      acceptOfferModel applyOk ld lid lname code = .error .badBase64) ∧
    (∀ bs, b64decode code = some bs → parseJson bs = none →
      acceptOfferModel applyOk ld lid lname code = .error .badJson) ∧
    (∀ j, decodeCode code = some j → jget j sdpKey = none →
      acceptOfferModel applyOk ld lid lname code = .error .applyFailed) ∧
    (∀ j sdp, decodeCode code = some j → jget j sdpKey = some sdp →
      applyOk sdp = true →
      acceptOfferModel applyOk ld lid lname code =
        .ok (encodeDesc ⟨answerRole, ld, lid, lname⟩,
          jgetStr j peerIdKey, jgetStr j peerNameKey)) := by
  refine ⟨?_, ?_, ?_, ?_⟩
  · intro h
    simp [acceptOfferModel, h]
  · intro bs h1 h2
    simp [acceptOfferModel, h1, h2]
  · intro j h1 h2
    rw [decodeCode] at h1
    cases hb : b64decode code with
    | none => rw [hb] at h1; simp at h1
    | some bs =>
      rw [hb] at h1
      simp only [Option.some.injEq] at h1
      simp [acceptOfferModel, hb, h1, h2]
  · intro j sdp h1 h2 h3
    rw [decodeCode] at h1
    cases hb : b64decode code with
    | none => rw [hb] at h1; simp at h1
    | some bs =>
      rw [hb] at h1
      simp only [Option.some.injEq] at h1
      simp [acceptOfferModel, hb, h1, h2, h3]

theorem claim8_witness :
    b64decode [0] = none ∧
    acceptOfferModel (fun _ => true) ⟨[], []⟩ [] [] [0] = .error .badBase64 :=
  ⟨rfl, (claim8_accept_errors (fun _ => true) ⟨[], []⟩ [] [] [0]).1 rfl⟩

/-! ## `completeConnection` (lines 142-172)

All fallible steps — `JSON.parse(atob(answerCode))`, the registry lookup
under the local placeholder id, the null-check on `peer.connection`, and
`setRemoteDescription(answerData.sdp)` — precede every registry mutation
(`peer.id = ...`, `peers.delete`, `peers.set`), so a thrown error leaves
the registry untouched. -/

/-- A registry entry: `id`/`name` are `Option` because
`completeConnection` overwrites them with possibly-`undefined` fields of
the decoded answer. -/
structure CPeer where
  id : Option JStr
  name : Option JStr
  hasConnection : Bool
  deriving DecidableEq, Repr

/-- Models `Map<string, P2PPeer>` keyed by (possibly `undefined`) peer id. -/
abbrev Registry := List (Option JStr × CPeer)

/-- Models `Map.get`. -/
def mapGet : Registry → Option JStr → Option CPeer
  | [], _ => none
  | (k, v) :: rest, key => if k = key then some v else mapGet rest key

/-- Models `Map.delete`. -/
def mapDelete : Registry → Option JStr → Registry
  | [], _ => []
  | (k, v) :: rest, key =>
    if k = key then mapDelete rest key else (k, v) :: mapDelete rest key

/-- Models `Map.set`: overwrite in place if the key exists, else append. -/
def mapSet (m : Registry) (key : Option JStr) (v : CPeer) : Registry :=
  if (mapGet m key).isSome then
    m.map fun p => if p.1 = key then (key, v) else p
  else m ++ [(key, v)]

/-- The failure modes of `completeConnection`: decode error (line 144),
`'No pending connection found'` (line 148), `'Connection not initialized'`
(line 152), and `setRemoteDescription` rejection (line 155). -/
inductive CompleteErr where
  | decodeFailed
  | noPendingConnection
  | connectionNotInitialized
  | applyFailed
  deriving DecidableEq, Repr

/-- Models `completeConnection(answerCode)` on registry `st`: returns the thrown
error (or `none` on success) together with the registry afterwards.  On
success the entry under the local placeholder id is re-keyed to the
remote peer id from the answer. -/
def completeConnectionModel (applyOk : Json → Bool) (localPeerId : JStr)
    (st : Registry) (answerCode : JStr) : Option CompleteErr × Registry :=
  match decodeCode answerCode with
  | none => (some .decodeFailed, st)
  | some answerData =>
    match mapGet st (some localPeerId) with
    | none => (some .noPendingConnection, st)
    | some peer =>
      if peer.hasConnection = true then
        match jget answerData sdpKey with
        | none => (some .applyFailed, st)
        | some sdp =>
          if applyOk sdp = true then
            let rid := jgetStr answerData peerIdKey
            let rname := jgetStr answerData peerNameKey
            (none,
              mapSet (mapDelete st (some localPeerId)) rid
                { peer with id := rid, name := rname })
          else (some .applyFailed, st)
      else (some .connectionNotInitialized, st)

/-- C10: whenever `completeConnection` throws — decode failure, no
outstanding offer, uninitialized connection, or a rejected remote
description — the peer registry is left exactly as it was before the
call. -/
theorem claim10_complete_atomic (applyOk : Json → Bool) (localPeerId : JStr)
    (st : Registry) (code : JStr) (e : CompleteErr)
    (h : (completeConnectionModel applyOk localPeerId st code).1 = some e) :
    (completeConnectionModel applyOk localPeerId st code).2 = st := by
  unfold completeConnectionModel at h ⊢
  cases hd : decodeCode code with
  | none => simp [hd]
  | some j =>
    simp only [hd] at h ⊢
    cases hg : mapGet st (some localPeerId) with
    | none => simp [hg]
    | some peer =>
      simp only [hg] at h ⊢
      by_cases hc : peer.hasConnection = true
      · simp only [hc, if_true] at h ⊢
        cases hs : jget j sdpKey with
        | none => simp [hs]
        | some sdp =>
          simp only [hs] at h ⊢
          by_cases ha : applyOk sdp = true
          · simp [ha] at h
          · simp [ha]
      · simp [hc]

theorem claim10_witness :
    (completeConnectionModel (fun _ => false) [] [] [0]).1
        = some CompleteErr.decodeFailed ∧
    (completeConnectionModel (fun _ => false) [] [] [0]).2 = [] :=
  ⟨rfl, claim10_complete_atomic (fun _ => false) [] [] [0] CompleteErr.decodeFailed rfl⟩
